import Mathlib

/-!
# Verification of the music21 ornament realization engine (`music21/expressions.py`)

This file gives a shallow embedding of the ornament realization engine of the
`expressions` module: the per-ornament `realize` rules (mordent, trill, turn,
appoggiatura, tremolo), the `numberOfMarks` setter of `Tremolo`, and the
`realizeOrnaments` driver, together with theorems about them.

External collaborators that are not part of the excerpt (the interval model,
the key-signature lookup, note copying and note splitting) are modelled from
the specification: the interval model is kept fully abstract (an arbitrary
type `I` with `transpose : Pitch → I → Pitch` and `reverse : I → I`), the
ambient key signature is an abstract `Char → Option Int` lookup (with
`Option` ambient context defaulting to the empty key signature), notes are
immutable values so that Python deep copies become plain value reuse, and
`splitAtQuarterLength` splits a note value into a fixed-length head and the
remaining tail.

Machine reals do not appear: `quarterLength` values are rationals, following
the specification ("duration (quarter-length, a rational number)").
-/

/-- A spelled pitch: diatonic step letter, optional accidental alteration
(`none` = no accidental object; `some a` = accidental altering by `a`
semitones), and octave.  Modelled from the spec: the pitch model lives in a
module outside the excerpt; the spec describes a pitch as
"diatonic step + accidental + octave". -/
structure Pitch where
  step : Char
  alter : Option Int
  octave : Int
deriving DecidableEq, Repr

/-- The textual modifier of an accidental, as used in music21 pitch names:
sharps are rendered with one hash mark per semitone, flats with one dash per
semitone, and both a natural accidental and an absent accidental render as
the empty string.  Modelled from the spec (pitch naming is outside the
excerpt). -/
def alterModifier : Option Int → String
  | none => ""
  | some a => if 0 ≤ a then String.mk (List.replicate a.toNat '#')
              else String.mk (List.replicate (-a).toNat '-')

/-- The `nameWithOctave` of a pitch: step letter, accidental modifier, octave.
Modelled from the spec; this is the quantity the trill compares with
`srcObj.pitch.nameWithOctave`. -/
def nameWithOctave (p : Pitch) : String :=
  String.singleton p.step ++ alterModifier p.alter ++ toString p.octave

/-- The per-ornament parameters carried by an expression attached to a note.
Each constructor embeds one concrete `realize`-bearing class of
`expressions.py` (with the class hierarchy flattened into parameters:
`Mordent`/`InvertedMordent`/half- and whole-step variants are
`generalMordent` with particular `direction`/`size` values, and similarly
for trills, turns and appoggiaturas).  `ornamentBase` stands for an
`Ornament` subclass that inherits the base-class `realize` returning
`([], srcObj, [])` (e.g. `Schleifer`), and `other` stands for a
non-`Ornament` expression with no `realize` attribute (e.g. `Fermata`,
`TextExpression`); the `tag` only distinguishes such expressions from each
other. -/
inductive Exp (I : Type) where
  | generalMordent (direction : String) (size : Option I) (quarterLength : ℚ)
  | trill (size : I) (quarterLength : ℚ) (nachschlag : Bool)
      (setAccidentalFromKeySig : Bool)
  | turn (size : Option I) (quarterLength : ℚ)
  | generalAppoggiatura (direction : String) (size : Option I)
  | tremolo (numberOfMarks : Int)
  | ornamentBase
  | other (tag : Nat)
deriving DecidableEq

/-- A timed note-like value: spelled pitch, quarter-length duration,
attached expressions, plus two capability flags that model Python attribute
presence: `canTranspose` is `hasattr(obj, 'transpose')` (false for
unpitched percussion objects) and `hasExprAttr` is
`hasattr(obj, 'expressions')`. -/
structure MNote (I : Type) where
  pitch : Pitch
  quarterLength : ℚ
  expressions : List (Exp I)
  canTranspose : Bool := true
  hasExprAttr : Bool := true
deriving DecidableEq

/-- The Python exceptions the engine can raise.  `expressionException` is
`music21.expressions.ExpressionException`, `tremoloException` is
`TremoloException`; `typeError`, `attributeError` and `valueError` are the
corresponding Python built-in exceptions. -/
inductive M21Error where
  | expressionException (msg : String)
  | tremoloException (msg : String)
  | typeError (msg : String)
  | attributeError (msg : String)
  | valueError (msg : String)
  | indexError
deriving DecidableEq, Repr

/-- The three-element tuple returned by every `realize` method:
`(before, remainder or None, after)`. -/
abbrev RealizeResult (I : Type) :=
  List (MNote I) × Option (MNote I) × List (MNote I)

/-- Sum of the quarter-lengths of a list of notes. -/
def sumQL {I : Type} (l : List (MNote I)) : ℚ :=
  (l.map (fun n => n.quarterLength)).sum

/-- Total quarter-length of a realization: before + remainder + after. -/
def realizationSum {I : Type} (r : RealizeResult I) : ℚ :=
  sumQL r.1 + (match r.2.1 with | some n => n.quarterLength | none => 0) + sumQL r.2.2

/-- Source `n.pitch.accidental = currentKeySig.accidentalByStep(n.step)`: overwrite the
accidental of a note with the one the key signature mandates for its step
(possibly `none`, which removes the accidental). -/
def setAccFromKS {I : Type} (ks : Char → Option Int) (n : MNote I) : MNote I :=
  { n with pitch := { n.pitch with alter := ks n.pitch.step } }

/-- Resolve the ambient key-signature context: the source of `realize`
looks up `getContextByClass(KeySignature)` and falls back to
`KeySignature(0)` (whose `accidentalByStep` is `None` on every step) when
none is found.  Modelled from the spec: the context walk is outside the
excerpt and is abstracted into an optional lookup function. -/
def resolveKS (ctx : Option (Char → Option Int)) : Char → Option Int :=
  ctx.getD (fun _ => none)

namespace Ornament

/-- Embeds `Ornament.fillListOfRealizedNotes`: raises `TypeError` when the source
object has no `transpose` attribute; otherwise appends two deep copies of
the source at the ornament quarter-length, the second transposed by
`transposeInterval`.  (The copies keep the source's `expressions` list: the
source's TODO comments about removing expressions are not implemented.) -/
def fillListOfRealizedNotes {I : Type} (transpose : Pitch → I → Pitch)
    (quarterLength : ℚ) (transposeInterval : I) (srcObj : MNote I) :
    Except M21Error (List (MNote I)) :=
  if ¬ srcObj.canTranspose then
    .error (.typeError "Expected note; got an object without transpose")
  else
    .ok [{ srcObj with quarterLength := quarterLength },
         { srcObj with quarterLength := quarterLength,
                       pitch := transpose srcObj.pitch transposeInterval }]

end Ornament

namespace GeneralMordent

/-- Embeds `GeneralMordent.realize`: precondition checks (direction, size,
zero duration, insufficient duration), then two grace notes via
`fillListOfRealizedNotes` (second transposed by `size`, reversed when the
direction is down), unconditional key-signature accidental assignment on
both grace notes, and a remainder copy holding the unconsumed tail. -/
def realize {I : Type} (transpose : Pitch → I → Pitch) (reverse : I → I)
    (ctx : Option (Char → Option Int))
    (direction : String) (size : Option I) (quarterLength : ℚ)
    (srcObj : MNote I) : Except M21Error (RealizeResult I) :=
  if direction ≠ "up" ∧ direction ≠ "down" then
    .error (.expressionException "Cannot realize a mordent if I do not know its direction")
  else match size with
  | none => .error (.expressionException "Cannot realize a mordent if there is no size given")
  | some sz =>
    if srcObj.quarterLength = 0 then
      .error (.expressionException "Cannot steal time from an object with no duration")
    else if srcObj.quarterLength < quarterLength * 2 then
      .error (.expressionException "The note is not long enough to realize a mordent")
    else
      let remainderDuration := srcObj.quarterLength - 2 * quarterLength
      let transposeInterval := if direction = "down" then reverse sz else sz
      match Ornament.fillListOfRealizedNotes transpose quarterLength transposeInterval srcObj with
      | .error e => .error e
      | .ok mordNotes =>
        let currentKeySig := resolveKS ctx
        let mordNotes := mordNotes.map (setAccFromKS currentKeySig)
        let remainderNote := { srcObj with quarterLength := remainderDuration }
        .ok (mordNotes, some remainderNote, [])

end GeneralMordent

namespace Trill

/-- Embeds `Trill.realize`: duration precondition checks, then
`numberOfTrillNotes = int(duration / quarterLength)` (two fewer with
nachschlag), `int(numberOfTrillNotes / 2)` passes through
`fillListOfRealizedNotes` each emitting an (original copy, transposed copy)
pair; key-signature accidental assignment only on generated notes whose
`nameWithOctave` differs from the source's (when `_setAccidentalFromKeySig`
holds); with nachschlag two trailing copies (second reverse-transposed)
with unconditional accidental assignment.  The remainder slot is always
`none`.  Python truncating conversions on the nonnegative quantities
involved are `Int.floor`/`Int.toNat` with natural division. -/
def realize {I : Type} (transpose : Pitch → I → Pitch) (reverse : I → I)
    (ctx : Option (Char → Option Int))
    (size : I) (quarterLength : ℚ) (nachschlag : Bool)
    (setAccidentalFromKeySig : Bool)
    (srcObj : MNote I) : Except M21Error (RealizeResult I) :=
  if srcObj.quarterLength = 0 then
    .error (.expressionException "Cannot steal time from an object with no duration")
  else if srcObj.quarterLength < 2 * quarterLength then
    .error (.expressionException "The note is not long enough to realize a trill")
  else if srcObj.quarterLength < 4 * quarterLength ∧ nachschlag then
    .error (.expressionException "The note is not long enough for a nachschlag")
  else
    let transposeInterval := size
    let transposeIntervalReverse := reverse size
    let numberOfTrillNotes : ℤ := ⌊srcObj.quarterLength / quarterLength⌋
    let numberOfTrillNotes := if nachschlag then numberOfTrillNotes - 2 else numberOfTrillNotes
    let pairs : ℕ := numberOfTrillNotes.toNat / 2
    let fillResult : Except M21Error (List (MNote I)) :=
      if pairs = 0 then .ok []
      else match Ornament.fillListOfRealizedNotes transpose quarterLength
                   transposeInterval srcObj with
      | .error e => .error e
      | .ok pair => .ok ((List.range pairs).flatMap (fun _ => pair))
    match fillResult with
    | .error e => .error e
    | .ok trillNotes =>
      let currentKeySig := resolveKS ctx
      let trillNotes := if setAccidentalFromKeySig then
          trillNotes.map (fun n =>
            if nameWithOctave n.pitch ≠ nameWithOctave srcObj.pitch then
              setAccFromKS currentKeySig n
            else n)
        else trillNotes
      if nachschlag then
        if ¬ srcObj.canTranspose then
          .error (.attributeError "object has no attribute transpose")
        else
          let firstNoteNachschlag :=
            { srcObj with expressions := [], quarterLength := quarterLength }
          let secondNoteNachschlag :=
            { srcObj with expressions := [], quarterLength := quarterLength,
                          pitch := transpose srcObj.pitch transposeIntervalReverse }
          let nachschlagNotes := if setAccidentalFromKeySig then
              [setAccFromKS currentKeySig firstNoteNachschlag,
               setAccFromKS currentKeySig secondNoteNachschlag]
            else [firstNoteNachschlag, secondNoteNachschlag]
          .ok (trillNotes, none, nachschlagNotes)
      else
        .ok (trillNotes, none, [])

end Trill

namespace Turn

/-- Embeds `Turn.realize`: size/zero-duration/insufficient-duration checks, then
four grace notes (up-transposed, original, down-transposed, original; the
inverted turn is obtained by passing the reversed interval as `size`), each
with cleared expressions, unconditional key-signature accidental assignment
on all four, and a remainder copy of duration `source − 4 × quarterLength`
occupying the middle slot, with the four notes in the after slot.  The
transposition calls raise `AttributeError` on an object without a
`transpose` attribute. -/
def realize {I : Type} (transpose : Pitch → I → Pitch) (reverse : I → I)
    (ctx : Option (Char → Option Int))
    (size : Option I) (quarterLength : ℚ)
    (srcObject : MNote I) : Except M21Error (RealizeResult I) :=
  match size with
  | none => .error (.expressionException "Cannot realize a turn if there is no size given")
  | some sz =>
    if srcObject.quarterLength = 0 then
      .error (.expressionException "Cannot steal time from an object with no duration")
    else if srcObject.quarterLength < 4 * quarterLength then
      .error (.expressionException "The note is not long enough to realize a turn")
    else if ¬ srcObject.canTranspose then
      .error (.attributeError "object has no attribute transpose")
    else
      let remainderDuration := srcObject.quarterLength - 4 * quarterLength
      let transposeIntervalUp := sz
      let transposeIntervalDown := reverse sz
      let firstNote := { srcObject with expressions := [], quarterLength := quarterLength, pitch := transpose srcObject.pitch transposeIntervalUp }
      let secondNote := { srcObject with expressions := [], quarterLength := quarterLength }
      let thirdNote := { srcObject with expressions := [], quarterLength := quarterLength, pitch := transpose srcObject.pitch transposeIntervalDown }
      let fourthNote := { srcObject with expressions := [], quarterLength := quarterLength }
      let currentKeySig := resolveKS ctx
      let turnNotes := [firstNote, secondNote, thirdNote, fourthNote].map
        (setAccFromKS currentKeySig)
      let remainderNote := { srcObject with quarterLength := remainderDuration }
      .ok ([], some remainderNote, turnNotes)

end Turn

namespace GeneralAppoggiatura

/-- Embeds `GeneralAppoggiatura.realize`: direction/size/zero-duration checks,
then the duration is halved; the grace note is a copy at half duration
transposed by `size` (as-is when direction is down, reversed when up), the
remainder is a copy at the other half with unmodified pitch.  The fetched
key signature is unused: no accidental assignment happens.  The
transposition call raises `AttributeError` on an object without a
`transpose` attribute. -/
def realize {I : Type} (transpose : Pitch → I → Pitch) (reverse : I → I)
    (ctx : Option (Char → Option Int))
    (direction : String) (size : Option I)
    (srcObj : MNote I) : Except M21Error (RealizeResult I) :=
  if direction ≠ "up" ∧ direction ≠ "down" then
    .error (.expressionException "Cannot realize an Appoggiatura if I do not know its direction")
  else match size with
  | none => .error (.expressionException "Cannot realize an Appoggiatura if there is no size given")
  | some sz =>
    if srcObj.quarterLength = 0 then
      .error (.expressionException "Cannot steal time from an object with no duration")
    else if ¬ srcObj.canTranspose then
      .error (.attributeError "object has no attribute transpose")
    else
      let newDuration := srcObj.quarterLength / 2
      let transposeInterval := if direction = "down" then sz else reverse sz
      let appoggiaturaNote := { srcObj with quarterLength := newDuration, pitch := transpose srcObj.pitch transposeInterval }
      let remainderNote := { srcObj with quarterLength := newDuration }
      let _currentKeySig := resolveKS ctx
      .ok ([appoggiaturaNote], some remainderNote, [])

end GeneralAppoggiatura

/-- Remove the first occurrence of an element from a list (Python
`list.remove` guarded by `if x in l`, which removes nothing when absent). -/
def removeFirst {α : Type} [DecidableEq α] (a : α) : List α → List α
  | [] => []
  | x :: xs => if x = a then xs else x :: removeFirst a xs

namespace Tremolo

/-- The `while` loop of `Tremolo.realize`: while the remaining copy is
longer than `lengthOfEach`, split off a head of duration `lengthOfEach`
(`splitAtQuarterLength` is modelled from the spec: "split the working copy
of the source at sliceLength from its start, collecting the fixed-length
head and reducing the tail"); the final tail is appended as the last slice.
The `0 < lengthOfEach` guard does not restrict the embedded behavior:
`lengthOfEach = 2^(−numberOfMarks)` is always positive. -/
def tremoloLoop {I : Type} (lengthOfEach : ℚ) (eRemain : MNote I) : List (MNote I) :=
  if h : 0 < lengthOfEach ∧ lengthOfEach < eRemain.quarterLength then
    { eRemain with quarterLength := lengthOfEach } ::
      tremoloLoop lengthOfEach { eRemain with quarterLength := eRemain.quarterLength - lengthOfEach }
  else [eRemain]
termination_by ⌈eRemain.quarterLength / lengthOfEach⌉₊
decreasing_by
  have hlen : 0 < lengthOfEach := h.1
  have hlt : lengthOfEach < eRemain.quarterLength := h.2
  have hx : (1 : ℚ) < eRemain.quarterLength / lengthOfEach :=
    (one_lt_div hlen).mpr hlt
  have hone : 1 < ⌈eRemain.quarterLength / lengthOfEach⌉₊ := by
    have := Nat.lt_ceil.mpr (by exact_mod_cast hx : ((1 : ℕ) : ℚ) < eRemain.quarterLength / lengthOfEach)
    omega
  have hsub : (eRemain.quarterLength - lengthOfEach) / lengthOfEach
      = eRemain.quarterLength / lengthOfEach - 1 := by
    rw [sub_div, div_self (ne_of_gt hlen)]
  have hle : ⌈(eRemain.quarterLength - lengthOfEach) / lengthOfEach⌉₊
      ≤ ⌈eRemain.quarterLength / lengthOfEach⌉₊ - 1 := by
    rw [hsub]
    apply Nat.ceil_le.mpr
    have hcast : ((⌈eRemain.quarterLength / lengthOfEach⌉₊ - 1 : ℕ) : ℚ)
        = (⌈eRemain.quarterLength / lengthOfEach⌉₊ : ℚ) - 1 := by
      rw [Nat.cast_sub (by omega : 1 ≤ ⌈eRemain.quarterLength / lengthOfEach⌉₊), Nat.cast_one]
    rw [hcast]
    have := Nat.le_ceil (eRemain.quarterLength / lengthOfEach)
    linarith
  omega

/-- Embeds `Tremolo.realize`: `lengthOfEach = 2 ** (−numberOfMarks)`; a deep copy
of the source with this tremolo removed from its expressions (the spec:
"The ornament itself is stripped from the first copy before splitting to
avoid infinite recursion") is repeatedly split; all slices are collected in
the before slot, with a `none` remainder and an empty after list.
`selfExp` is the expression object being realized (used for the removal). -/
def realize {I : Type} [DecidableEq I] (selfExp : Exp I) (numberOfMarks : Int)
    (srcObj : MNote I) : Except M21Error (RealizeResult I) :=
  let lengthOfEach : ℚ := 2 ^ (-numberOfMarks)
  let eRemain := { srcObj with expressions := removeFirst selfExp srcObj.expressions }
  .ok (tremoloLoop lengthOfEach eRemain, none, [])

/-- A Python value assigned to `Tremolo.numberOfMarks`: an int, a float, or
a string.  (Other value shapes make Python's `int()` raise `TypeError`,
which the setter does not catch; they are outside this model.) -/
inductive PyVal where
  | pyInt (i : Int)
  | pyFloat (q : ℚ)
  | pyStr (s : String)
deriving DecidableEq, Repr

/-- Python's `int()` builtin on the modelled values: identity on ints,
truncation toward zero on floats, decimal-string parsing on strings with
`ValueError` on anything unparsable.  Modelled from Python semantics (the
builtin is outside the repository). -/
def pyIntConv : PyVal → Except M21Error Int
  | .pyInt i => .ok i
  | .pyFloat q => .ok (if 0 ≤ q then ⌊q⌋ else ⌈q⌉)
  | .pyStr s => match s.toInt? with
    | some i => .ok i
    | none => .error (.valueError s)

/-- The `numberOfMarks` setter: `num = int(num)`; raise `ValueError` when
the converted value is below 0 or above 8; store it otherwise.  Any
`ValueError` (from the conversion or the range check) is caught and
re-raised as `TremoloException`; on rejection the stored value is
unchanged.  Returns the new stored value and the raised error, if any. -/
def numberOfMarksSet (stored : Int) (num : PyVal) : Int × Option M21Error :=
  match pyIntConv num with
  | .error _ =>
    (stored, some (.tremoloException "Number of marks must be a number from 0 to 8"))
  | .ok n =>
    if n < 0 ∨ n > 8 then
      (stored, some (.tremoloException "Number of marks must be a number from 0 to 8"))
    else (n, none)

end Tremolo

/-- Embeds `hasattr(thisExpression, 'realize')`: true for every `Ornament`
(including those inheriting the base-class `realize`), false for other
expressions. -/
def hasRealize {I : Type} : Exp I → Bool
  | .other _ => false
  | _ => true

/-- Whether the remainder returned by this expression's `realize` is the
very source object rather than a fresh copy: true only for the base-class
`realize`, which returns `([], srcObj, [])`; every overriding `realize`
builds its remainder (if any) as a deep copy. -/
def aliasingRealize {I : Type} : Exp I → Bool
  | .ornamentBase => true
  | _ => false

/-- Dispatch `thisExpression.realize(srcObject)` over the expression's
class. -/
def expRealize {I : Type} [DecidableEq I] (transpose : Pitch → I → Pitch)
    (reverse : I → I) (ctx : Option (Char → Option Int)) :
    Exp I → MNote I → Except M21Error (RealizeResult I)
  | .generalMordent d sz q, src => GeneralMordent.realize transpose reverse ctx d sz q src
  | .trill sz q nach acc, src => Trill.realize transpose reverse ctx sz q nach acc src
  | .turn sz q, src => Turn.realize transpose reverse ctx sz q src
  | .generalAppoggiatura d sz, src => GeneralAppoggiatura.realize transpose reverse ctx d sz src
  | .tremolo m, src => Tremolo.realize (.tremolo m) m src
  | .ornamentBase, src => .ok ([], some src, [])
  | .other _, src => .ok ([], some src, [])

/-- One unrolled state of `realizeOrnaments`' `while` loop.  Objects are
values here, so Python aliasing is tracked explicitly: `aliased` records
whether `srcObject` is still the very note object the caller passed in, and
`orig` is the caller's object's current state (mutations through the alias
update it).  The loop body mirrors the source: take the first expression;
if it has a `realize` attribute, invoke it, extend the accumulators, stop
when the remainder is `None`, otherwise reassign the remainder's
`expressions` to the tail and continue unless that tail is empty; if it has
no `realize` attribute, drop it from the (possibly aliased) working note's
expressions in place.  The fuel argument is the `loopBuster` counter;
reading `expressions[0]` of an empty list is an `IndexError` (unreachable
from `realizeOrnaments`, whose branches keep the list nonempty). -/
def driverLoop {I : Type} [DecidableEq I] (transpose : Pitch → I → Pitch)
    (reverse : I → I) (ctx : Option (Char → Option Int)) :
    Nat → List (MNote I) → List (MNote I) → MNote I → Bool → MNote I →
    Except M21Error (List (MNote I) × List (MNote I) × Option (MNote I) × MNote I)
  | 0, preExpandList, postExpandList, srcObject, _aliased, orig =>
    .ok (preExpandList, postExpandList, some srcObject, orig)
  | loopBuster + 1, preExpandList, postExpandList, srcObject, aliased, orig =>
    match srcObject.expressions with
    | [] => .error .indexError
    | thisExpression :: restExpressions =>
      if hasRealize thisExpression then
        match expRealize transpose reverse ctx thisExpression srcObject with
        | .error e => .error e
        | .ok (preExpand, newSrcObject, postExpand) =>
          let preExpandList := preExpandList ++ preExpand
          let postExpandList := postExpandList ++ postExpand
          match newSrcObject with
          | none => .ok (preExpandList, postExpandList, none, orig)
          | some newSrcObject =>
            let newSrcObject := { newSrcObject with expressions := restExpressions }
            let orig := if aliased && aliasingRealize thisExpression then newSrcObject else orig
            let aliased := aliased && aliasingRealize thisExpression
            if newSrcObject.expressions.isEmpty then
              .ok (preExpandList, postExpandList, some newSrcObject, orig)
            else
              driverLoop transpose reverse ctx loopBuster
                preExpandList postExpandList newSrcObject aliased orig
      else
        let srcObject := { srcObject with expressions := restExpressions }
        let orig := if aliased then srcObject else orig
        if srcObject.expressions.isEmpty then
          .ok (preExpandList, postExpandList, some srcObject, orig)
        else
          driverLoop transpose reverse ctx loopBuster
            preExpandList postExpandList srcObject aliased orig

/-- Embeds `realizeOrnaments(srcObject)`: return `[srcObject]` untouched when the
object has no `expressions` attribute or an empty expressions list;
otherwise run the bounded expansion loop and flatten
`preExpandList + [srcObject]? + postExpandList`.  The second component of
the returned pair is the final state of the caller's note object (which the
loop can mutate through aliasing). -/
def realizeOrnaments {I : Type} [DecidableEq I] (transpose : Pitch → I → Pitch)
    (reverse : I → I) (ctx : Option (Char → Option Int))
    (srcObject : MNote I) : Except M21Error (List (MNote I) × MNote I) :=
  if ¬ srcObject.hasExprAttr then .ok ([srcObject], srcObject)
  else if srcObject.expressions.isEmpty then .ok ([srcObject], srcObject)
  else
    match driverLoop transpose reverse ctx 100 [] [] srcObject true srcObject with
    | .error e => .error e
    | .ok (preExpandList, postExpandList, final, orig) =>
      let retList := preExpandList ++
        (match final with | some n => [n] | none => []) ++ postExpandList
      .ok (retList, orig)

/-! ## A concrete instantiation of the abstract collaborators

Used by the closed example theorems.  The interval type is `ℤ`: a signed
count of diatonic steps (so `1` is an ascending generic second).  Pitches
transposed by a generic interval get no accidental, and `reverse` negates
the step count. -/

/-- Diatonic index of a step letter on the C major scale. -/
def stepIdx : Char → Int
  | 'D' => 1
  | 'E' => 2
  | 'F' => 3
  | 'G' => 4
  | 'A' => 5
  | 'B' => 6
  | _ => 0

/-- Step letter of a diatonic index (inverse of `stepIdx` modulo 7). -/
def idxStep : Int → Char
  | 1 => 'D'
  | 2 => 'E'
  | 3 => 'F'
  | 4 => 'G'
  | 5 => 'A'
  | 6 => 'B'
  | _ => 'C'

/-- Transpose a pitch by a signed count of diatonic steps. -/
def intTranspose (p : Pitch) (k : Int) : Pitch :=
  let idx := stepIdx p.step + k
  { step := idxStep (idx % 7), alter := none, octave := p.octave + idx / 7 }

/-- Reverse an interval given as a signed diatonic step count. -/
def intReverse (k : Int) : Int := -k

/-- A pitched concrete note over the `ℤ` interval model. -/
def mkNote (step : Char) (alter : Option Int) (octave : Int) (q : ℚ)
    (ex : List (Exp ℤ)) : MNote ℤ :=
  { pitch := { step := step, alter := alter, octave := octave },
    quarterLength := q, expressions := ex }

/-- A note-like object without a `transpose` attribute (e.g. an unpitched
percussion hit) over the `ℤ` interval model. -/
def mkUnpitched (q : ℚ) : MNote ℤ :=
  { pitch := { step := 'C', alter := none, octave := 4 },
    quarterLength := q, expressions := [], canTranspose := false }

/-- Whether an error is a Python `TypeError`. -/
def M21Error.isTypeError : M21Error → Bool
  | .typeError _ => true
  | _ => false

/-- Decidable equality of `Except` values (for closed example theorems). -/
instance {e a : Type} [DecidableEq e] [DecidableEq a] : DecidableEq (Except e a) := fun x y =>
  match x, y with
  | .error u, .error v =>
    if h : u = v then .isTrue (by rw [h]) else .isFalse (by simp [h])
  | .ok u, .ok v =>
    if h : u = v then .isTrue (by rw [h]) else .isFalse (by simp [h])
  | .error _, .ok _ => .isFalse (by simp)
  | .ok _, .error _ => .isFalse (by simp)


/-- The two grace notes that `GeneralMordent.realize` produces, after the
unconditional key-signature accidental assignment. -/
def mordentGraceNotes {I : Type} (transpose : Pitch → I → Pitch)
    (ks : Char → Option Int) (transposeInterval : I) (quarterLength : ℚ)
    (src : MNote I) : List (MNote I) :=
  [setAccFromKS ks { src with quarterLength := quarterLength },
   setAccFromKS ks { src with quarterLength := quarterLength, pitch := transpose src.pitch transposeInterval }]

/-- The number of (original, transposed) pairs a trill generates:
`int(int(duration / quarterLength) [− 2] / 2)`. -/
def trillPairs (oq qL : ℚ) (nachschlag : Bool) : ℕ :=
  (if nachschlag then ⌊qL / oq⌋ - 2 else ⌊qL / oq⌋).toNat / 2

/-- The transposed member of a trill pair, after the conditional
key-signature accidental assignment. -/
def trillTransposedNote {I : Type} (transpose : Pitch → I → Pitch)
    (ks : Char → Option Int) (setAcc : Bool) (size : I) (oq : ℚ)
    (src : MNote I) : MNote I :=
  let n := { src with quarterLength := oq, pitch := transpose src.pitch size }
  if setAcc ∧ nameWithOctave n.pitch ≠ nameWithOctave src.pitch then setAccFromKS ks n else n

/-- The nachschlag tail of a trill: an untransposed copy and a
reverse-transposed copy, both with cleared expressions, both getting the
key-signature accidental unconditionally when `setAcc`. -/
def trillNachschlagNotes {I : Type} (transpose : Pitch → I → Pitch)
    (reverse : I → I) (ks : Char → Option Int) (setAcc : Bool) (size : I)
    (oq : ℚ) (src : MNote I) : List (MNote I) :=
  let n1 := { src with expressions := [], quarterLength := oq }
  let n2 := { src with expressions := [], quarterLength := oq, pitch := transpose src.pitch (reverse size) }
  if setAcc then [setAccFromKS ks n1, setAccFromKS ks n2] else [n1, n2]

/-- The four turn notes, after the unconditional accidental assignment. -/
def turnNotes {I : Type} (transpose : Pitch → I → Pitch) (reverse : I → I)
    (ks : Char → Option Int) (size : I) (oq : ℚ) (src : MNote I) :
    List (MNote I) :=
  [setAccFromKS ks { src with expressions := [], quarterLength := oq, pitch := transpose src.pitch size },
   setAccFromKS ks { src with expressions := [], quarterLength := oq },
   setAccFromKS ks { src with expressions := [], quarterLength := oq, pitch := transpose src.pitch (reverse size) },
   setAccFromKS ks { src with expressions := [], quarterLength := oq }]

/-! ## Characterization lemmas

One lemma per `realize` rule, computing the exact result under the rule's
preconditions.  The claim theorems below are derived from these. -/

theorem GeneralMordent.mordentRealize_spec {I : Type} (transpose : Pitch → I → Pitch)
    (reverse : I → I) (ctx : Option (Char → Option Int))
    {d : String} {z : I} {oq : ℚ} {src : MNote I}
    (hd : d = "up" ∨ d = "down") (h0 : src.quarterLength ≠ 0)
    (h2 : ¬ src.quarterLength < oq * 2) (ht : src.canTranspose = true) :
    GeneralMordent.realize transpose reverse ctx d (some z) oq src =
      .ok (mordentGraceNotes transpose (resolveKS ctx)
             (if d = "down" then reverse z else z) oq src,
           some { src with quarterLength := src.quarterLength - 2 * oq }, []) := by
  have hdir : ¬ (d ≠ "up" ∧ d ≠ "down") := by
    rcases hd with h | h <;> simp [h]
  unfold GeneralMordent.realize Ornament.fillListOfRealizedNotes
  rw [if_neg hdir]
  simp only [if_neg h0, if_neg h2, ht, not_true, if_neg, ite_false, Bool.true_eq_false,
    not_false_eq_true, ite_true, mordentGraceNotes, List.map]
/-- Mapping over a flatMap of a constant two-element block. -/
theorem flatMap_const_pair_map {A B : Type} (l : List A) (a b : B) (g : B → B) :
    (l.flatMap (fun _ => [a, b])).map g = l.flatMap (fun _ => [g a, g b]) := by
  induction l with
  | nil => rfl
  | cons x xs ih => simp [List.flatMap_cons, ih]

theorem trillPairs_pos {oq qL : ℚ} {nachschlag : Bool} (hoq : 0 < oq)
    (h2 : 2 * oq ≤ qL) (hnach : nachschlag = true → 4 * oq ≤ qL) :
    0 < trillPairs oq qL nachschlag := by
  unfold trillPairs
  cases nachschlag with
  | false =>
    have : (2 : ℤ) ≤ ⌊qL / oq⌋ := by
      rw [Int.le_floor]
      rw [le_div_iff₀ hoq]
      push_cast
      linarith
    simp only [if_false, Bool.false_eq_true]
    omega
  | true =>
    have : (4 : ℤ) ≤ ⌊qL / oq⌋ := by
      rw [Int.le_floor]
      rw [le_div_iff₀ hoq]
      push_cast
      linarith [hnach rfl]
    simp only [if_true]
    omega

theorem Trill.trillRealize_spec {I : Type} (transpose : Pitch → I → Pitch)
    (reverse : I → I) (ctx : Option (Char → Option Int))
    {sz : I} {oq : ℚ} {nachschlag setAcc : Bool} {src : MNote I}
    (hoq : 0 < oq) (h2 : 2 * oq ≤ src.quarterLength)
    (hnach : nachschlag = true → 4 * oq ≤ src.quarterLength)
    (ht : src.canTranspose = true) :
    Trill.realize transpose reverse ctx sz oq nachschlag setAcc src =
      .ok ((List.range (trillPairs oq src.quarterLength nachschlag)).flatMap
             (fun _ => [{ src with quarterLength := oq },
                        trillTransposedNote transpose (resolveKS ctx) setAcc sz oq src]),
           none,
           if nachschlag then
             trillNachschlagNotes transpose reverse (resolveKS ctx) setAcc sz oq src
           else []) := by
  have h0 : src.quarterLength ≠ 0 := by
    have : (0 : ℚ) < src.quarterLength := by linarith
    exact ne_of_gt this
  have h2x : ¬ src.quarterLength < 2 * oq := not_lt.mpr h2
  have h3 : ¬ (src.quarterLength < 4 * oq ∧ nachschlag = true) := by
    rintro ⟨hlt, hn⟩
    exact absurd (hnach hn) (not_le.mpr hlt)
  have hp : trillPairs oq src.quarterLength nachschlag ≠ 0 :=
    Nat.pos_iff_ne_zero.mp (trillPairs_pos hoq h2 hnach)
  have hp2 : ((if nachschlag = true then ⌊src.quarterLength / oq⌋ - 2
      else ⌊src.quarterLength / oq⌋).toNat / 2) ≠ 0 := hp
  unfold Trill.realize Ornament.fillListOfRealizedNotes
  rw [if_neg h0, if_neg h2x, if_neg h3, ht]
  simp only [not_true, ite_false, Bool.not_true, if_neg hp2, Bool.false_eq_true,
    not_false_eq_true, ite_true]
  cases hacc : setAcc <;> cases hnch : nachschlag <;>
    simp [flatMap_const_pair_map, trillTransposedNote, trillNachschlagNotes,
      trillPairs, hacc, hnch, setAccFromKS, ht]
theorem Turn.turnRealize_spec {I : Type} (transpose : Pitch → I → Pitch)
    (reverse : I → I) (ctx : Option (Char → Option Int))
    {z : I} {oq : ℚ} {src : MNote I}
    (h0 : src.quarterLength ≠ 0) (h4 : ¬ src.quarterLength < 4 * oq)
    (ht : src.canTranspose = true) :
    Turn.realize transpose reverse ctx (some z) oq src =
      .ok ([], some { src with quarterLength := src.quarterLength - 4 * oq },
           turnNotes transpose reverse (resolveKS ctx) z oq src) := by
  simp only [Turn.realize, if_neg h0, if_neg h4, ht]
  simp [turnNotes, ht]

theorem GeneralAppoggiatura.appoggiaturaRealize_spec {I : Type} (transpose : Pitch → I → Pitch)
    (reverse : I → I) (ctx : Option (Char → Option Int))
    {d : String} {z : I} {src : MNote I}
    (hd : d = "up" ∨ d = "down") (h0 : src.quarterLength ≠ 0)
    (ht : src.canTranspose = true) :
    GeneralAppoggiatura.realize transpose reverse ctx d (some z) src =
      .ok ([{ src with quarterLength := src.quarterLength / 2, pitch := transpose src.pitch (if d = "down" then z else reverse z) }],
           some { src with quarterLength := src.quarterLength / 2 }, []) := by
  have hdir : ¬ (d ≠ "up" ∧ d ≠ "down") := by
    rcases hd with h | h <;> simp [h]
  simp only [GeneralAppoggiatura.realize, if_neg hdir, if_neg h0, ht]
  simp [ht]

/-- The tremolo loop conserves duration: the slice quarter-lengths sum to
the working note's quarter-length. -/
theorem Tremolo.tremoloLoop_sum {I : Type} (lengthOfEach : ℚ) (r : MNote I) :
    sumQL (Tremolo.tremoloLoop lengthOfEach r) = r.quarterLength := by
  induction r using Tremolo.tremoloLoop.induct lengthOfEach with
  | case1 r h ih =>
    rw [Tremolo.tremoloLoop, dif_pos h]
    simp only [sumQL, List.map_cons, List.sum_cons] at ih ⊢
    rw [ih]
    ring
  | case2 r h =>
    rw [Tremolo.tremoloLoop, dif_neg h]
    simp [sumQL]
/-- Once the working note is no longer an alias of the caller's object,
the loop never touches the caller's object again. -/
theorem driverLoop_unaliased {I : Type} [DecidableEq I] (t : Pitch → I → Pitch)
    (r : I → I) (c : Option (Char → Option Int)) :
    ∀ (fuel : Nat) (pre post : List (MNote I)) (src orig : MNote I)
      (p q : List (MNote I)) (s : Option (MNote I)) (fo : MNote I),
      driverLoop t r c fuel pre post src false orig = .ok (p, q, s, fo) →
      fo = orig := by
  intro fuel
  induction fuel with
  | zero =>
    intro pre post src orig p q s fo h
    simp only [driverLoop] at h
    cases h
    rfl
  | succ n ih =>
    intro pre post src orig p q s fo h
    simp only [driverLoop] at h
    split at h
    · cases h
    · rename_i e rest _
      split at h
      · split at h
        · cases h
        · rename_i res preE newSrc postE heq
          split at h
          · cases h
            rfl
          · rename_i newSrcObject
            simp only [Bool.false_and, if_neg (by simp : ¬ (false = true))] at h
            split at h
            · cases h
              rfl
            · exact ih _ _ _ _ _ _ _ _ h
      · split at h
        · cases h
          rfl
        · exact ih _ _ _ _ _ _ _ _ h
/-- Only the base-class `realize` returns its argument as the remainder. -/
theorem aliasingRealize_eq_base {I : Type} {e : Exp I}
    (h : aliasingRealize e = true) : e = Exp.ornamentBase := by
  cases e <;> first | rfl | exact Bool.noConfusion h

/-- The loop can change the caller's object only through its
`expressions` attribute: on success, the final state of the caller's
object agrees with its initial state on every other field.  The
hypothesis is the aliasing invariant: while `aliased` holds, the working
note is the caller's object. -/
theorem driverLoop_orig_shape {I : Type} [DecidableEq I] (t : Pitch → I → Pitch)
    (r : I → I) (c : Option (Char → Option Int)) :
    ∀ (fuel : Nat) (pre post : List (MNote I)) (src : MNote I) (aliased : Bool)
      (orig : MNote I) (p q : List (MNote I)) (s : Option (MNote I)) (fo : MNote I),
      (aliased = true → src = orig) →
      driverLoop t r c fuel pre post src aliased orig = .ok (p, q, s, fo) →
      fo = { orig with expressions := fo.expressions } := by
  intro fuel
  induction fuel with
  | zero =>
    intro pre post src aliased orig p q s fo _ h
    simp only [driverLoop] at h
    cases h
    rfl
  | succ n ih =>
    intro pre post src aliased orig p q s fo hinv h
    simp only [driverLoop] at h
    split at h
    · cases h
    · rename_i e rest hexp
      split at h
      · split at h
        · cases h
        · rename_i res preE newSrc postE heq
          split at h
          · cases h
            rfl
          · rename_i newSrcObject
            by_cases hal : (aliased && aliasingRealize e) = true
            · have hal2 : aliased = true ∧ aliasingRealize e = true := by
                simpa using hal
              have he : e = Exp.ornamentBase := aliasingRealize_eq_base hal2.2
              have hsrc : src = orig := hinv hal2.1
              have hns : newSrcObject = src := by
                rw [he] at heq
                simp only [expRealize, Except.ok.injEq, Prod.mk.injEq,
                  Option.some.injEq] at heq
                exact heq.2.1.symm
              rw [if_pos hal, hal] at h
              subst hns hsrc
              split at h
              · cases h
                rfl
              · have hres := ih _ _ _ _ _ _ _ _ _ (fun _ => rfl) h
                exact hres
            · rw [if_neg hal] at h
              rw [Bool.not_eq_true] at hal
              rw [hal] at h
              split at h
              · cases h
                rfl
              · exact ih _ _ _ _ _ _ _ _ _ (fun hx => absurd hx Bool.false_ne_true) h
      · rcases Bool.eq_false_or_eq_true aliased with hA | hA
        · rw [hinv hA] at h
          rw [hA, if_pos rfl] at h
          split at h
          · cases h
            rfl
          · have hres := ih _ _ _ _ _ _ _ _ _ (fun _ => rfl) h
            exact hres
        · rw [hA] at h
          rw [if_neg Bool.false_ne_true] at h
          split at h
          · cases h
            rfl
          · exact ih _ _ _ _ _ _ _ _ _ (fun hx => absurd hx Bool.false_ne_true) h
theorem sumQL_append {I : Type} (l1 l2 : List (MNote I)) :
    sumQL (l1 ++ l2) = sumQL l1 + sumQL l2 := by
  simp [sumQL]

theorem sumQL_flatMap_pair {I : Type} (p : ℕ) (a b : MNote I) :
    sumQL ((List.range p).flatMap (fun _ => [a, b]))
      = p * (a.quarterLength + b.quarterLength) := by
  induction p with
  | zero => simp [sumQL]
  | succ k ih =>
    rw [List.range_succ, List.flatMap_append, sumQL_append, ih]
    simp [sumQL]
    ring

theorem setAccFromKS_quarterLength {I : Type} (ks : Char → Option Int) (n : MNote I) :
    (setAccFromKS ks n).quarterLength = n.quarterLength := rfl

theorem setAccFromKS_expressions {I : Type} (ks : Char → Option Int) (n : MNote I) :
    (setAccFromKS ks n).expressions = n.expressions := rfl

theorem trillTransposedNote_quarterLength {I : Type} (transpose : Pitch → I → Pitch)
    (ks : Char → Option Int) (setAcc : Bool) (size : I) (oq : ℚ) (src : MNote I) :
    (trillTransposedNote transpose ks setAcc size oq src).quarterLength = oq := by
  simp only [trillTransposedNote]
  split <;> rfl

theorem trillTransposedNote_expressions {I : Type} (transpose : Pitch → I → Pitch)
    (ks : Char → Option Int) (setAcc : Bool) (size : I) (oq : ℚ) (src : MNote I) :
    (trillTransposedNote transpose ks setAcc size oq src).expressions = src.expressions := by
  simp only [trillTransposedNote]
  split <;> rfl

theorem sumQL_trillNachschlagNotes {I : Type} (transpose : Pitch → I → Pitch)
    (reverse : I → I) (ks : Char → Option Int) (setAcc : Bool) (size : I)
    (oq : ℚ) (src : MNote I) :
    sumQL (trillNachschlagNotes transpose reverse ks setAcc size oq src) = oq + oq := by
  simp only [trillNachschlagNotes]
  split <;> simp [sumQL, setAccFromKS]

theorem trillPairs_exact_multiple {oq : ℚ} (hoq : 0 < oq) (m : ℕ) (nach : Bool) :
    trillPairs oq (2 * m * oq) nach = if nach then m - 1 else m := by
  unfold trillPairs
  have hfl : ⌊(2 * (m : ℚ) * oq) / oq⌋ = 2 * (m : ℤ) := by
    rw [mul_div_assoc, div_self (ne_of_gt hoq), mul_one]
    have : (2 : ℚ) * (m : ℚ) = ((2 * m : ℤ) : ℚ) := by push_cast; ring
    rw [this, Int.floor_intCast]
  push_cast at hfl ⊢
  rw [hfl]
  cases nach with
  | false =>
    simp only [Bool.false_eq_true, if_false, ite_false]
    omega
  | true =>
    simp only [if_true, ite_true]
    omega
/-- C1: Duration conservation.  As amended: for every mordent, turn,
appoggiatura and tremolo realization satisfying the rule's preconditions,
the sum of the quarter-lengths of all returned notes
(before + remainder + after) equals the source note's quarter-length
exactly; for trills this holds whenever the source duration is an even
integer multiple of the trill quarter-length (and fails otherwise, see the
counterexample). -/
theorem C1_duration_conservation {I : Type} [DecidableEq I]
    (transpose : Pitch → I → Pitch) (reverse : I → I)
    (ctx : Option (Char → Option Int)) :
    (∀ (d : String) (z : I) (oq : ℚ) (src : MNote I),
        (d = "up" ∨ d = "down") → src.quarterLength ≠ 0 →
        ¬ src.quarterLength < oq * 2 → src.canTranspose = true →
        (GeneralMordent.realize transpose reverse ctx d (some z) oq src).map realizationSum
          = .ok src.quarterLength) ∧
    (∀ (z : I) (oq : ℚ) (src : MNote I),
        src.quarterLength ≠ 0 → ¬ src.quarterLength < 4 * oq → src.canTranspose = true →
        (Turn.realize transpose reverse ctx (some z) oq src).map realizationSum
          = .ok src.quarterLength) ∧
    (∀ (d : String) (z : I) (src : MNote I),
        (d = "up" ∨ d = "down") → src.quarterLength ≠ 0 → src.canTranspose = true →
        (GeneralAppoggiatura.realize transpose reverse ctx d (some z) src).map realizationSum
          = .ok src.quarterLength) ∧
    (∀ (selfExp : Exp I) (numberOfMarks : Int) (src : MNote I),
        (Tremolo.realize selfExp numberOfMarks src).map realizationSum
          = .ok src.quarterLength) ∧
    (∀ (sz : I) (oq : ℚ) (m : ℕ) (nachschlag setAcc : Bool) (src : MNote I),
        0 < oq → src.quarterLength = 2 * m * oq → 1 ≤ m →
        (nachschlag = true → 2 ≤ m) → src.canTranspose = true →
        (Trill.realize transpose reverse ctx sz oq nachschlag setAcc src).map realizationSum
          = .ok src.quarterLength) := by
  refine ⟨?_, ?_, ?_, ?_, ?_⟩
  · intro d z oq src hd h0 h2 ht
    rw [GeneralMordent.mordentRealize_spec transpose reverse ctx hd h0 h2 ht]
    simp only [Except.map]
    congr 1
    simp [realizationSum, sumQL, mordentGraceNotes, setAccFromKS]
    ring
  · intro z oq src h0 h4 ht
    rw [Turn.turnRealize_spec transpose reverse ctx h0 h4 ht]
    simp only [Except.map]
    congr 1
    simp [realizationSum, sumQL, turnNotes, setAccFromKS]
    ring
  · intro d z src hd h0 ht
    rw [GeneralAppoggiatura.appoggiaturaRealize_spec transpose reverse ctx hd h0 ht]
    simp only [Except.map]
    congr 1
    simp [realizationSum, sumQL]
  · intro selfExp numberOfMarks src
    simp only [Tremolo.realize, Except.map]
    congr 1
    have := Tremolo.tremoloLoop_sum (I := I) ((2 : ℚ) ^ (-numberOfMarks))
      { src with expressions := removeFirst selfExp src.expressions }
    simp only [realizationSum, sumQL, List.map_nil, List.sum_nil, add_zero] at this ⊢
    exact this
  · intro sz oq m nachschlag setAcc src hoq hql hm1 hmn ht
    have hmq : (1 : ℚ) ≤ (m : ℚ) := by exact_mod_cast hm1
    have h2 : 2 * oq ≤ src.quarterLength := by rw [hql]; nlinarith
    have hnach : nachschlag = true → 4 * oq ≤ src.quarterLength := by
      intro hn
      have : (2 : ℚ) ≤ (m : ℚ) := by exact_mod_cast hmn hn
      rw [hql]; nlinarith
    rw [Trill.trillRealize_spec transpose reverse ctx hoq h2 hnach ht]
    simp only [Except.map]
    congr 1
    rw [realizationSum]
    rw [sumQL_flatMap_pair]
    rw [hql, trillPairs_exact_multiple hoq]
    cases nachschlag with
    | false =>
      simp only [Bool.false_eq_true, ite_false, sumQL, List.map_nil, List.sum_nil,
        trillTransposedNote_quarterLength, add_zero]
      ring
    | true =>
      have hc : ((m - 1 : ℕ) : ℚ) = (m : ℚ) - 1 := by
        rw [Nat.cast_sub hm1, Nat.cast_one]
      simp only [ite_true]
      rw [sumQL_trillNachschlagNotes]
      simp only [sumQL, List.map_nil, List.sum_nil,
        trillTransposedNote_quarterLength, hc, add_zero]
      ring
/-- C1 counterexample: a trill with quarterLength 1/8 on a source note of
duration 3/8 satisfies the trill's preconditions (duration at least
2 × 1/8), yet the realized notes sum to 1/4, not 3/8: duration
conservation fails for trills whose source duration is not an even
multiple of the trill quarter-length. -/
theorem C1_counterexample :
    2 * (1/8 : ℚ) ≤ (mkNote 'C' none 4 (3/8) []).quarterLength ∧
    (Trill.realize intTranspose intReverse none (1 : ℤ) (1/8) false true
        (mkNote 'C' none 4 (3/8) [])).map realizationSum = .ok (1/4 : ℚ) ∧
    (1/4 : ℚ) ≠ (mkNote 'C' none 4 (3/8) []).quarterLength := by
  refine ⟨of_decide_eq_true (by with_unfolding_all rfl),
    of_decide_eq_true (by with_unfolding_all rfl),
    of_decide_eq_true (by with_unfolding_all rfl)⟩

/-- C1 witness: conservation at concrete inputs, one per ornament kind,
obtained from the conservation theorem. -/
theorem C1_witness :
    (GeneralMordent.realize intTranspose intReverse none "down" (some (1:ℤ)) (1/8)
        (mkNote 'C' none 4 (1/2) [])).map realizationSum = .ok (1/2 : ℚ) ∧
    (Turn.realize intTranspose intReverse none (some (1:ℤ)) (1/4)
        (mkNote 'C' none 5 1 [])).map realizationSum = .ok (1 : ℚ) ∧
    (GeneralAppoggiatura.realize intTranspose intReverse none "down" (some (1:ℤ))
        (mkNote 'C' none 4 (1/2) [])).map realizationSum = .ok (1/2 : ℚ) ∧
    (Tremolo.realize (Exp.tremolo 3) 3
        (mkNote 'C' none 4 1 [Exp.tremolo 3])).map realizationSum = .ok (1 : ℚ) ∧
    (Trill.realize intTranspose intReverse none (1:ℤ) (1/8) false true
        (mkNote 'C' none 4 (1/2) [])).map realizationSum = .ok (1/2 : ℚ) := by
  refine ⟨?_, ?_, ?_, ?_, ?_⟩
  · exact (C1_duration_conservation intTranspose intReverse none).1 "down" 1 (1/8) _
      (Or.inr rfl) (of_decide_eq_true (by with_unfolding_all rfl))
      (of_decide_eq_true (by with_unfolding_all rfl)) rfl
  · exact (C1_duration_conservation intTranspose intReverse none).2.1 1 (1/4) _
      (of_decide_eq_true (by with_unfolding_all rfl))
      (of_decide_eq_true (by with_unfolding_all rfl)) rfl
  · exact (C1_duration_conservation intTranspose intReverse none).2.2.1 "down" 1 _
      (Or.inr rfl) (of_decide_eq_true (by with_unfolding_all rfl)) rfl
  · exact (C1_duration_conservation intTranspose intReverse none).2.2.2.1 (Exp.tremolo 3) 3 _
  · exact (C1_duration_conservation intTranspose intReverse none).2.2.2.2 1 (1/8) 2 false true _
      (of_decide_eq_true (by with_unfolding_all rfl))
      (of_decide_eq_true (by with_unfolding_all rfl)) (by omega)
      (fun h => by cases h) rfl
theorem length_flatMap_pair {A B : Type} (l : List A) (a b : B) :
    (l.flatMap (fun _ => [a, b])).length = 2 * l.length := by
  induction l with
  | nil => rfl
  | cons x xs ih => simp [List.flatMap_cons, ih]; ring

/-- C2: Trill note count.  As amended: the core list of a trill realization
holds exactly `2 * (numberOfTrillNotes / 2)` grace notes, where
`numberOfTrillNotes = floor(sourceDuration / quarterLength)` (two fewer
when nachschlag) and the division by 2 is truncating — one fewer note than
`numberOfTrillNotes` when that count is odd; the notes alternate
original-pitch and size-transposed copies, the remainder is always null, a
source duration of exactly `2 × quarterLength` yields exactly 2 notes, and
a positive duration below that threshold raises the
insufficient-duration error. -/
theorem C2_trill_note_count {I : Type} [DecidableEq I]
    (transpose : Pitch → I → Pitch) (reverse : I → I)
    (ctx : Option (Char → Option Int)) :
    (∀ (sz : I) (oq : ℚ) (nachschlag setAcc : Bool) (src : MNote I),
        0 < oq → 2 * oq ≤ src.quarterLength →
        (nachschlag = true → 4 * oq ≤ src.quarterLength) → src.canTranspose = true →
        (Trill.realize transpose reverse ctx sz oq nachschlag setAcc src).map
            (fun r => (r.1.length, r.2.1))
          = .ok (2 * trillPairs oq src.quarterLength nachschlag, none)) ∧
    (∀ (sz : I) (oq : ℚ) (nachschlag setAcc : Bool) (src : MNote I),
        0 < oq → 2 * oq ≤ src.quarterLength →
        (nachschlag = true → 4 * oq ≤ src.quarterLength) → src.canTranspose = true →
        (Trill.realize transpose reverse ctx sz oq nachschlag setAcc src).map
            (fun r => r.1)
          = .ok ((List.range (trillPairs oq src.quarterLength nachschlag)).flatMap
              (fun _ => [{ src with quarterLength := oq },
                trillTransposedNote transpose (resolveKS ctx) setAcc sz oq src]))) ∧
    (∀ (sz : I) (oq : ℚ) (setAcc : Bool) (src : MNote I),
        0 < oq → src.quarterLength = 2 * oq → src.canTranspose = true →
        (Trill.realize transpose reverse ctx sz oq false setAcc src).map
            (fun r => (r.1.length, r.2.1))
          = .ok (2, none)) ∧
    (∀ (sz : I) (oq : ℚ) (nachschlag setAcc : Bool) (src : MNote I),
        src.quarterLength ≠ 0 → src.quarterLength < 2 * oq →
        Trill.realize transpose reverse ctx sz oq nachschlag setAcc src
          = .error (.expressionException "The note is not long enough to realize a trill")) := by
  refine ⟨?_, ?_, ?_, ?_⟩
  · intro sz oq nachschlag setAcc src hoq h2 hnach ht
    rw [Trill.trillRealize_spec transpose reverse ctx hoq h2 hnach ht]
    simp only [Except.map, Except.ok.injEq, Prod.mk.injEq]
    rw [length_flatMap_pair, List.length_range]
    exact ⟨rfl, trivial⟩
  · intro sz oq nachschlag setAcc src hoq h2 hnach ht
    rw [Trill.trillRealize_spec transpose reverse ctx hoq h2 hnach ht]
    simp only [Except.map]
  · intro sz oq setAcc src hoq hql ht
    have h2 : 2 * oq ≤ src.quarterLength := le_of_eq hql.symm
    rw [Trill.trillRealize_spec transpose reverse ctx hoq h2 (fun h => Bool.noConfusion h) ht]
    simp only [Except.map, Except.ok.injEq, Prod.mk.injEq]
    rw [length_flatMap_pair, List.length_range]
    have hql1 : src.quarterLength = 2 * ((1 : ℕ) : ℚ) * oq := by
      rw [hql]; push_cast; ring
    rw [hql1, trillPairs_exact_multiple hoq]
    simp
  · intro sz oq nachschlag setAcc src h0 hlt
    unfold Trill.realize
    rw [if_neg h0, if_pos hlt]

/-- C2 counterexample: a trill with quarterLength 1/8 on a source of
duration 3/8 satisfies the preconditions, and
`floor(sourceDuration / quarterLength) = 3`, yet the realization emits
only 2 core notes: the claimed count formula fails at odd quotients. -/
theorem C2_counterexample :
    2 * (1/8 : ℚ) ≤ (mkNote 'C' none 4 (3/8) []).quarterLength ∧
    (⌊((mkNote 'C' none 4 (3/8) []).quarterLength) / (1/8 : ℚ)⌋ = 3) ∧
    (Trill.realize intTranspose intReverse none (1 : ℤ) (1/8) false true
        (mkNote 'C' none 4 (3/8) [])).map (fun r => r.1.length) = .ok 2 ∧
    (2 : ℕ) ≠ 3 := by
  exact ⟨of_decide_eq_true (by with_unfolding_all rfl),
    of_decide_eq_true (by with_unfolding_all rfl),
    of_decide_eq_true (by with_unfolding_all rfl),
    of_decide_eq_true (by with_unfolding_all rfl)⟩

/-- C2 witness: the boundary and failure cases at concrete inputs, via the
count theorem, plus the count at a concrete longer trill. -/
theorem C2_witness :
    (Trill.realize intTranspose intReverse none (1 : ℤ) (1/8) false true
        (mkNote 'C' none 4 (1/4) [])).map (fun r => (r.1.length, r.2.1))
      = .ok (2, none) ∧
    Trill.realize intTranspose intReverse none (1 : ℤ) (1/8) false true
        (mkNote 'C' none 4 (1/16) [])
      = .error (.expressionException "The note is not long enough to realize a trill") ∧
    (Trill.realize intTranspose intReverse none (1 : ℤ) (1/8) false true
        (mkNote 'C' none 4 (1/2) [])).map (fun r => (r.1.length, r.2.1))
      = .ok (2 * trillPairs (1/8) ((mkNote 'C' none 4 (1/2) []).quarterLength) false, none) ∧
    2 * trillPairs (1/8) ((mkNote 'C' none 4 (1/2) []).quarterLength) false = 4 := by
  refine ⟨?_, ?_, ?_, ?_⟩
  · exact (C2_trill_note_count intTranspose intReverse none).2.2.1 1 (1/8) true _
      (of_decide_eq_true (by with_unfolding_all rfl))
      (of_decide_eq_true (by with_unfolding_all rfl)) rfl
  · exact (C2_trill_note_count intTranspose intReverse none).2.2.2 1 (1/8) false true _
      (of_decide_eq_true (by with_unfolding_all rfl))
      (of_decide_eq_true (by with_unfolding_all rfl))
  · exact (C2_trill_note_count intTranspose intReverse none).1 1 (1/8) false true _
      (of_decide_eq_true (by with_unfolding_all rfl))
      (of_decide_eq_true (by with_unfolding_all rfl))
      (fun h => by cases h) rfl
  · exact of_decide_eq_true (by with_unfolding_all rfl)
/-- C3: Trill accidental policy.  As amended: with key-signature
correction enabled, the correction is applied exactly to those CORE trill
notes whose spelled name-with-octave differs from the source's (the
original-pitch copies are returned with the source pitch untouched), but
the two nachschlag notes are corrected unconditionally — even when spelled
identically to the source. -/
theorem C3_trill_accidental_policy {I : Type} [DecidableEq I]
    (transpose : Pitch → I → Pitch) (reverse : I → I)
    (ctx : Option (Char → Option Int)) :
    (∀ (sz : I) (oq : ℚ) (nachschlag : Bool) (src : MNote I),
        0 < oq → 2 * oq ≤ src.quarterLength →
        (nachschlag = true → 4 * oq ≤ src.quarterLength) → src.canTranspose = true →
        Trill.realize transpose reverse ctx sz oq nachschlag true src =
          .ok ((List.range (trillPairs oq src.quarterLength nachschlag)).flatMap
                 (fun _ => [{ src with quarterLength := oq },
                   trillTransposedNote transpose (resolveKS ctx) true sz oq src]),
               none,
               if nachschlag then
                 trillNachschlagNotes transpose reverse (resolveKS ctx) true sz oq src
               else [])) ∧
    (∀ (ks : Char → Option Int) (sz : I) (oq : ℚ) (src : MNote I),
        (nameWithOctave (transpose src.pitch sz) ≠ nameWithOctave src.pitch →
          trillTransposedNote transpose ks true sz oq src =
            setAccFromKS ks { src with quarterLength := oq, pitch := transpose src.pitch sz }) ∧
        (nameWithOctave (transpose src.pitch sz) = nameWithOctave src.pitch →
          trillTransposedNote transpose ks true sz oq src =
            { src with quarterLength := oq, pitch := transpose src.pitch sz })) ∧
    (∀ (ks : Char → Option Int) (sz : I) (oq : ℚ) (src : MNote I),
        trillNachschlagNotes transpose reverse ks true sz oq src =
          [setAccFromKS ks { src with expressions := [], quarterLength := oq },
           setAccFromKS ks { src with expressions := [], quarterLength := oq, pitch := transpose src.pitch (reverse sz) }]) := by
  refine ⟨?_, ?_, ?_⟩
  · intro sz oq nachschlag src hoq h2 hnach ht
    exact Trill.trillRealize_spec transpose reverse ctx hoq h2 hnach ht
  · intro ks sz oq src
    constructor
    · intro hne
      simp only [trillTransposedNote]
      rw [if_pos ⟨(by trivial), hne⟩]
    · intro heq
      simp only [trillTransposedNote]
      rw [if_neg (fun hx => hx.2 heq)]
  · intro ks sz oq src
    simp [trillNachschlagNotes]

/-- C3 counterexample: a nachschlag trill on a C#4 source with no ambient
key signature.  The first nachschlag note is an untransposed copy —
spelled identically to the source — yet its accidental is replaced by the
key signature's answer (none), producing C-natural: the claim that a note
spelled identically to the source is never corrected is false for the
nachschlag notes. -/
theorem C3_counterexample :
    (mkNote 'C' (some 1) 4 (1/2) []).pitch = { step := 'C', alter := some 1, octave := 4 } ∧
    (Trill.realize intTranspose intReverse none (1 : ℤ) (1/8) true true
        (mkNote 'C' (some 1) 4 (1/2) [])).map (fun r => r.2.2.map (fun n => n.pitch))
      = .ok [{ step := 'C', alter := none, octave := 4 },
             { step := 'B', alter := none, octave := 3 }] ∧
    ({ step := 'C', alter := none, octave := 4 } : Pitch)
      ≠ { step := 'C', alter := some 1, octave := 4 } := by
  exact ⟨rfl, of_decide_eq_true (by with_unfolding_all rfl),
    of_decide_eq_true (by with_unfolding_all rfl)⟩

/-- C3 witness: the accidental policy at concrete inputs. -/
theorem C3_witness :
    Trill.realize intTranspose intReverse none (1 : ℤ) (1/8) false true
        (mkNote 'C' none 4 (1/4) [])
      = .ok ((List.range (trillPairs (1/8) ((mkNote 'C' none 4 (1/4) []).quarterLength) false)).flatMap
               (fun _ => [{ mkNote 'C' none 4 (1/4) [] with quarterLength := 1/8 },
                 trillTransposedNote intTranspose (resolveKS none) true (1 : ℤ) (1/8)
                   (mkNote 'C' none 4 (1/4) [])]),
             none, []) ∧
    trillTransposedNote intTranspose (fun _ => some 1) true (1 : ℤ) (1/8)
        (mkNote 'C' none 4 (1/4) [])
      = setAccFromKS (fun _ => some 1)
          { mkNote 'C' none 4 (1/4) [] with quarterLength := 1/8, pitch := intTranspose (mkNote 'C' none 4 (1/4) []).pitch 1 } ∧
    trillNachschlagNotes intTranspose intReverse (fun _ => some 1) true (1 : ℤ) (1/8)
        (mkNote 'C' none 4 (1/2) [])
      = [setAccFromKS (fun _ => some 1)
           { mkNote 'C' none 4 (1/2) [] with expressions := [], quarterLength := 1/8 },
         setAccFromKS (fun _ => some 1)
           { mkNote 'C' none 4 (1/2) [] with expressions := [], quarterLength := 1/8, pitch := intTranspose (mkNote 'C' none 4 (1/2) []).pitch (intReverse 1) }] := by
  refine ⟨?_, ?_, ?_⟩
  · have h := (C3_trill_accidental_policy intTranspose intReverse none).1 1 (1/8) false
      (mkNote 'C' none 4 (1/4) [])
      (of_decide_eq_true (by with_unfolding_all rfl))
      (of_decide_eq_true (by with_unfolding_all rfl))
      (fun hx => by cases hx) rfl
    simpa using h
  · exact ((C3_trill_accidental_policy intTranspose intReverse none).2.1
      (fun _ => some 1) 1 (1/8) (mkNote 'C' none 4 (1/4) [])).1
      (of_decide_eq_true (by with_unfolding_all rfl))
  · exact (C3_trill_accidental_policy intTranspose intReverse none).2.2
      (fun _ => some 1) 1 (1/8) (mkNote 'C' none 4 (1/2) [])
/-- When the first expression is an ornament whose `realize` returns fresh
copies (every overriding `realize`), one loop step abandons the alias and
the caller's object is never changed. -/
theorem driverLoop_fresh_head {I : Type} [DecidableEq I] (t : Pitch → I → Pitch)
    (r : I → I) (c : Option (Char → Option Int))
    (n : Nat) (pre post : List (MNote I)) (src orig : MNote I) (aliased : Bool)
    (e : Exp I) (rest : List (Exp I)) (p q : List (MNote I)) (s : Option (MNote I))
    (fo : MNote I)
    (hexp : src.expressions = e :: rest) (hr : hasRealize e = true)
    (hna : aliasingRealize e = false) :
    driverLoop t r c (n + 1) pre post src aliased orig = .ok (p, q, s, fo) →
    fo = orig := by
  intro h
  simp only [driverLoop] at h
  split at h
  · rename_i hexp2
    rw [hexp] at hexp2
    cases hexp2
  · rename_i e2 rest2 hexp2
    rw [hexp] at hexp2
    injection hexp2 with he hrest
    subst he hrest
    rw [if_pos hr] at h
    split at h
    · cases h
    · rename_i res preE newSrc postE heq
      split at h
      · cases h
        rfl
      · rename_i ns
        rw [hna] at h
        simp only [Bool.and_false] at h
        rw [if_neg Bool.false_ne_true] at h
        split at h
        · cases h
          rfl
        · exact driverLoop_unaliased t r c _ _ _ _ _ _ _ _ _ h

/-- C4: original-note preservation by `realizeOrnaments`.  As amended: on
every successful call the original note's pitch, duration and capability
attributes are unchanged (only its `expressions` attribute can change),
and when the first attached expression is an ornament with an overriding
`realize` (mordent, trill, turn, appoggiatura, tremolo) the original note
is completely untouched.  (When a leading expression has no `realize`
attribute, or uses the base-class `realize`, the driver truncates the
original's expressions list in place — see the counterexample.) -/
theorem C4_original_note_preservation {I : Type} [DecidableEq I]
    (t : Pitch → I → Pitch) (r : I → I) (c : Option (Char → Option Int)) :
    (∀ (src fo : MNote I) (ret : List (MNote I)),
        realizeOrnaments t r c src = .ok (ret, fo) →
        fo = { src with expressions := fo.expressions }) ∧
    (∀ (src fo : MNote I) (ret : List (MNote I)) (e : Exp I) (rest : List (Exp I)),
        src.expressions = e :: rest → hasRealize e = true → aliasingRealize e = false →
        realizeOrnaments t r c src = .ok (ret, fo) →
        fo = src) := by
  constructor
  · intro src fo ret h
    simp only [realizeOrnaments] at h
    split at h
    · cases h
      rfl
    · split at h
      · cases h
        rfl
      · split at h
        · cases h
        · rename_i pl ql fin orig0 heq
          cases h
          exact driverLoop_orig_shape t r c _ _ _ _ _ _ _ _ _ _ (fun _ => rfl) heq
  · intro src fo ret e rest hexp hr hna h
    simp only [realizeOrnaments] at h
    split at h
    · cases h
      rfl
    · split at h
      · cases h
        rfl
      · split at h
        · cases h
        · rename_i pl ql fin orig0 heq
          cases h
          rw [show (100 : ℕ) = 99 + 1 from rfl] at heq
          exact driverLoop_fresh_head t r c 99 _ _ _ _ _ _ _ _ _ _ _ hexp hr hna heq

/-- C4 counterexample: a note whose single attached expression has no
`realize` attribute.  The call succeeds, but the driver drops the
expression from the original note object in place: after the call the
original's expressions list is empty, so the original is NOT left
unmodified. -/
theorem C4_counterexample :
    (mkNote 'C' none 4 1 [Exp.other 0]).expressions = [Exp.other 0] ∧
    (realizeOrnaments intTranspose intReverse none
        (mkNote 'C' none 4 1 [Exp.other 0])).map (fun rr => rr.2.expressions)
      = .ok [] ∧
    ([] : List (Exp ℤ)) ≠ [Exp.other 0] := by
  exact ⟨rfl, of_decide_eq_true (by with_unfolding_all rfl),
    of_decide_eq_true (by with_unfolding_all rfl)⟩

/-- C4 witness: a concrete mordent-bearing note; the driver returns the
caller's object unchanged as the final original state. -/
theorem C4_witness :
    realizeOrnaments intTranspose intReverse none
        (mkNote 'C' none 4 (1/2) [Exp.generalMordent "down" (some (1:ℤ)) (1/8)])
      = .ok ([mkNote 'C' none 4 (1/8) [Exp.generalMordent "down" (some (1:ℤ)) (1/8)],
              mkNote 'B' none 3 (1/8) [Exp.generalMordent "down" (some (1:ℤ)) (1/8)],
              mkNote 'C' none 4 (1/2 - 2 * (1/8)) []],
             mkNote 'C' none 4 (1/2) [Exp.generalMordent "down" (some (1:ℤ)) (1/8)]) ∧
    mkNote 'C' none 4 (1/2) [Exp.generalMordent "down" (some (1:ℤ)) (1/8)]
      = { mkNote 'C' none 4 (1/2) [Exp.generalMordent "down" (some (1:ℤ)) (1/8)] with
          expressions := [Exp.generalMordent "down" (some (1:ℤ)) (1/8)] } := by
  constructor
  · exact of_decide_eq_true (by with_unfolding_all rfl)
  · exact (C4_original_note_preservation intTranspose intReverse none).2
      (mkNote 'C' none 4 (1/2) [Exp.generalMordent "down" (some (1:ℤ)) (1/8)])
      (mkNote 'C' none 4 (1/2) [Exp.generalMordent "down" (some (1:ℤ)) (1/8)])
      [mkNote 'C' none 4 (1/8) [Exp.generalMordent "down" (some (1:ℤ)) (1/8)],
       mkNote 'B' none 3 (1/8) [Exp.generalMordent "down" (some (1:ℤ)) (1/8)],
       mkNote 'C' none 4 (1/2 - 2 * (1/8)) []]
      (Exp.generalMordent "down" (some (1:ℤ)) (1/8)) [] rfl rfl rfl
      (of_decide_eq_true (by with_unfolding_all rfl))
/-- C5: Mordent realization shape.  As amended: under the mordent's
preconditions the before list holds exactly two grace notes of duration
quarterLength each — the first keeping the source's step and octave, the
second at the pitch transposed by size (reversed when direction is down) —
but BOTH grace notes get their accidental replaced by the key-signature
accidental for their step (so the first is not in general at the source's
exact original pitch); the remainder holds the source duration minus
2 × quarterLength, and the after list is empty. -/
theorem C5_mordent_realization {I : Type} (transpose : Pitch → I → Pitch)
    (reverse : I → I) (ctx : Option (Char → Option Int)) :
    (∀ (d : String) (z : I) (oq : ℚ) (src : MNote I),
        (d = "up" ∨ d = "down") → src.quarterLength ≠ 0 →
        ¬ src.quarterLength < oq * 2 → src.canTranspose = true →
        GeneralMordent.realize transpose reverse ctx d (some z) oq src =
          .ok (mordentGraceNotes transpose (resolveKS ctx)
                 (if d = "down" then reverse z else z) oq src,
               some { src with quarterLength := src.quarterLength - 2 * oq }, [])) ∧
    (∀ (ks : Char → Option Int) (ti : I) (oq : ℚ) (src : MNote I),
        mordentGraceNotes transpose ks ti oq src =
          [{ src with quarterLength := oq, pitch := { src.pitch with alter := ks src.pitch.step } },
           { src with quarterLength := oq, pitch := { step := (transpose src.pitch ti).step, alter := ks (transpose src.pitch ti).step, octave := (transpose src.pitch ti).octave } }]) := by
  constructor
  · intro d z oq src hd h0 h2 ht
    exact GeneralMordent.mordentRealize_spec transpose reverse ctx hd h0 h2 ht
  · intro ks ti oq src
    simp [mordentGraceNotes, setAccFromKS]

/-- C5 counterexample: a downward mordent on a C#4 source with no ambient
key signature.  The first grace note is claimed to be at the source's
original pitch, but the unconditional key-signature accidental assignment
replaces its sharp with none, yielding C-natural ≠ C#. -/
theorem C5_counterexample :
    (mkNote 'C' (some 1) 4 (1/2) []).pitch = { step := 'C', alter := some 1, octave := 4 } ∧
    (GeneralMordent.realize intTranspose intReverse none "down" (some (1:ℤ)) (1/8)
        (mkNote 'C' (some 1) 4 (1/2) [])).map (fun rr => rr.1.map (fun n => n.pitch))
      = .ok [{ step := 'C', alter := none, octave := 4 },
             { step := 'B', alter := none, octave := 3 }] ∧
    ({ step := 'C', alter := none, octave := 4 } : Pitch)
      ≠ { step := 'C', alter := some 1, octave := 4 } := by
  exact ⟨rfl, of_decide_eq_true (by with_unfolding_all rfl),
    of_decide_eq_true (by with_unfolding_all rfl)⟩

/-- C5 witness: the spec's own mordent scenario — C4 of duration 1/2 with
a default (downward, generic-second, 1/8) mordent — via the shape
theorem, plus a concrete evaluation of the result. -/
theorem C5_witness :
    GeneralMordent.realize intTranspose intReverse none "down" (some (1:ℤ)) (1/8)
        (mkNote 'C' none 4 (1/2) [])
      = .ok (mordentGraceNotes intTranspose (resolveKS none)
               (if "down" = "down" then intReverse 1 else 1) (1/8)
               (mkNote 'C' none 4 (1/2) []),
             some { mkNote 'C' none 4 (1/2) [] with quarterLength := 1/2 - 2 * (1/8) }, []) ∧
    (GeneralMordent.realize intTranspose intReverse none "down" (some (1:ℤ)) (1/8)
        (mkNote 'C' none 4 (1/2) [])).map
        (fun rr => (rr.1.map (fun n => (n.pitch, n.quarterLength)),
          rr.2.1.map (fun n => n.quarterLength)))
      = .ok ([({ step := 'C', alter := none, octave := 4 }, (1/8 : ℚ)),
              ({ step := 'B', alter := none, octave := 3 }, (1/8 : ℚ))], some (1/4 : ℚ)) := by
  constructor
  · exact (C5_mordent_realization intTranspose intReverse none).1 "down" 1 (1/8) _
      (Or.inr rfl) (of_decide_eq_true (by with_unfolding_all rfl))
      (of_decide_eq_true (by with_unfolding_all rfl)) rfl
  · exact of_decide_eq_true (by with_unfolding_all rfl)
/-- C6: Appoggiatura realization.  Confirmed: with direction set,
non-empty size and strictly positive duration, the duration is split
exactly in half; the before list holds one grace note at half duration
transposed by size (as-is when down, reversed when up), the remainder is a
copy at the other half with unmodified pitch, the after list is empty, and
no key-signature accidental correction is applied (the result does not
depend on the ambient key-signature context at all). -/
theorem C6_appoggiatura_realization {I : Type} (transpose : Pitch → I → Pitch)
    (reverse : I → I) :
    (∀ (ctx : Option (Char → Option Int)) (d : String) (z : I) (src : MNote I),
        (d = "up" ∨ d = "down") → 0 < src.quarterLength → src.canTranspose = true →
        GeneralAppoggiatura.realize transpose reverse ctx d (some z) src =
          .ok ([{ src with quarterLength := src.quarterLength / 2, pitch := transpose src.pitch (if d = "down" then z else reverse z) }],
               some { src with quarterLength := src.quarterLength / 2 }, [])) ∧
    (∀ (ctx1 ctx2 : Option (Char → Option Int)) (d : String) (sz : Option I)
        (src : MNote I),
        GeneralAppoggiatura.realize transpose reverse ctx1 d sz src =
          GeneralAppoggiatura.realize transpose reverse ctx2 d sz src) := by
  constructor
  · intro ctx d z src hd hpos ht
    exact GeneralAppoggiatura.appoggiaturaRealize_spec transpose reverse ctx hd (ne_of_gt hpos) ht
  · intro ctx1 ctx2 d sz src
    rfl

/-- C6 witness: a downward appoggiatura on a C4 source of duration 1/2
splits it into a D4 grace note and a C4 remainder of duration 1/4 each,
identically under two different ambient key signatures. -/
theorem C6_witness :
    GeneralAppoggiatura.realize intTranspose intReverse none "down" (some (1:ℤ))
        (mkNote 'C' none 4 (1/2) [])
      = .ok ([{ mkNote 'C' none 4 (1/2) [] with quarterLength := (1/2 : ℚ) / 2, pitch := intTranspose (mkNote 'C' none 4 (1/2) []).pitch (if "down" = "down" then 1 else intReverse 1) }],
             some { mkNote 'C' none 4 (1/2) [] with quarterLength := (1/2 : ℚ) / 2 }, []) ∧
    GeneralAppoggiatura.realize intTranspose intReverse (some (fun _ => some 1)) "down"
        (some (1:ℤ)) (mkNote 'C' none 4 (1/2) [])
      = GeneralAppoggiatura.realize intTranspose intReverse none "down" (some (1:ℤ))
          (mkNote 'C' none 4 (1/2) []) ∧
    (GeneralAppoggiatura.realize intTranspose intReverse none "down" (some (1:ℤ))
        (mkNote 'C' none 4 (1/2) [])).map
        (fun rr => (rr.1.map (fun n => (n.pitch, n.quarterLength)),
          rr.2.1.map (fun n => (n.pitch, n.quarterLength))))
      = .ok ([({ step := 'D', alter := none, octave := 4 }, (1/4 : ℚ))],
             some ({ step := 'C', alter := none, octave := 4 }, (1/4 : ℚ))) := by
  refine ⟨?_, ?_, ?_⟩
  · exact (C6_appoggiatura_realization intTranspose intReverse).1 none "down" 1 _
      (Or.inr rfl) (of_decide_eq_true (by with_unfolding_all rfl)) rfl
  · exact (C6_appoggiatura_realization intTranspose intReverse).2
      (some (fun _ => some 1)) none "down" (some 1) _
  · exact of_decide_eq_true (by with_unfolding_all rfl)

/-- C7: numberOfMarks validation.  As amended: the setter first converts
the assigned value with Python `int()` (identity on ints, truncation
toward zero on floats, decimal parsing on strings); it raises the
invalid-mark-count `TremoloException` if and only if that conversion fails
or the converted integer lies outside [0, 8] — so a non-integer float such
as 3.5 is silently truncated and accepted, contrary to the original claim.
On a rejected assignment the stored value is unchanged; the check happens
in the setter itself, independent of any realize call. -/
theorem C7_numberOfMarks_validation :
    (∀ (stored : Int) (num : Tremolo.PyVal) (e : M21Error),
        Tremolo.pyIntConv num = .error e →
        Tremolo.numberOfMarksSet stored num =
          (stored, some (.tremoloException "Number of marks must be a number from 0 to 8"))) ∧
    (∀ (stored n : Int) (num : Tremolo.PyVal),
        Tremolo.pyIntConv num = .ok n → (n < 0 ∨ 8 < n) →
        Tremolo.numberOfMarksSet stored num =
          (stored, some (.tremoloException "Number of marks must be a number from 0 to 8"))) ∧
    (∀ (stored n : Int) (num : Tremolo.PyVal),
        Tremolo.pyIntConv num = .ok n → 0 ≤ n → n ≤ 8 →
        Tremolo.numberOfMarksSet stored num = (n, none)) ∧
    (∀ (stored : Int) (num : Tremolo.PyVal) (e : M21Error),
        (Tremolo.numberOfMarksSet stored num).2 = some e →
        (Tremolo.numberOfMarksSet stored num).1 = stored) := by
  refine ⟨?_, ?_, ?_, ?_⟩
  · intro stored num e h
    simp [Tremolo.numberOfMarksSet, h]
  · intro stored n num h hout
    have hlt : n < 0 ∨ n > 8 := hout
    simp [Tremolo.numberOfMarksSet, h, if_pos hlt]
  · intro stored n num h h0 h8
    have hin : ¬ (n < 0 ∨ n > 8) := by omega
    simp [Tremolo.numberOfMarksSet, h, if_neg hin]
  · intro stored num e h
    unfold Tremolo.numberOfMarksSet at h ⊢
    split at h
    · rfl
    · split at h
      · rename_i hc
        rw [if_pos hc]
      · simp at h
/-- C7 counterexample: assigning the float 3.5 — inside [0, 8] but not an
integer — does not raise: `int()` truncates it to 3, which is accepted and
stored.  The claim that non-integer values are always rejected is false. -/
theorem C7_counterexample :
    (7/2 : ℚ).den ≠ 1 ∧
    (0 : ℚ) ≤ 7/2 ∧ (7/2 : ℚ) ≤ 8 ∧
    Tremolo.numberOfMarksSet 2 (.pyFloat (7/2)) = (3, none) := by
  exact ⟨of_decide_eq_true (by with_unfolding_all rfl),
    of_decide_eq_true (by with_unfolding_all rfl),
    of_decide_eq_true (by with_unfolding_all rfl),
    of_decide_eq_true (by with_unfolding_all rfl)⟩

/-- C7 witness: concrete accepted and rejected assignments through the
validation theorem. -/
theorem C7_witness :
    Tremolo.numberOfMarksSet 3 (.pyStr "Hi")
      = (3, some (.tremoloException "Number of marks must be a number from 0 to 8")) ∧
    Tremolo.numberOfMarksSet 3 (.pyInt 9)
      = (3, some (.tremoloException "Number of marks must be a number from 0 to 8")) ∧
    Tremolo.numberOfMarksSet 3 (.pyInt (-1))
      = (3, some (.tremoloException "Number of marks must be a number from 0 to 8")) ∧
    Tremolo.numberOfMarksSet 3 (.pyInt 5) = (5, none) ∧
    (Tremolo.numberOfMarksSet 3 (.pyStr "Hi")).1 = 3 := by
  refine ⟨?_, ?_, ?_, ?_, ?_⟩
  · exact C7_numberOfMarks_validation.1 3 (.pyStr "Hi") (.valueError "Hi")
      (of_decide_eq_true (by with_unfolding_all rfl))
  · exact C7_numberOfMarks_validation.2.1 3 9 (.pyInt 9) rfl (by omega)
  · exact C7_numberOfMarks_validation.2.1 3 (-1) (.pyInt (-1)) rfl (by omega)
  · exact C7_numberOfMarks_validation.2.2.1 3 5 (.pyInt 5) rfl (by omega) (by omega)
  · exact C7_numberOfMarks_validation.2.2.2 3 (.pyStr "Hi")
      (.tremoloException "Number of marks must be a number from 0 to 8")
      (of_decide_eq_true (by with_unfolding_all rfl))

/-- C8: unsupported target type.  As amended: realizing a transposing
ornament on a note-like object without a `transpose` attribute always
fails and never silently produces output, but the exception differs by
kind: mordents and trills raise the explicit `TypeError` from
`fillListOfRealizedNotes`, while turns and appoggiaturas hit the missing
attribute directly and raise `AttributeError` (not a `TypeError`). -/
theorem C8_unsupported_target {I : Type} (transpose : Pitch → I → Pitch)
    (reverse : I → I) (ctx : Option (Char → Option Int)) :
    (∀ (d : String) (z : I) (oq : ℚ) (src : MNote I),
        (d = "up" ∨ d = "down") → src.quarterLength ≠ 0 →
        ¬ src.quarterLength < oq * 2 → src.canTranspose = false →
        GeneralMordent.realize transpose reverse ctx d (some z) oq src
          = .error (.typeError "Expected note; got an object without transpose")) ∧
    (∀ (sz : I) (oq : ℚ) (nachschlag setAcc : Bool) (src : MNote I),
        0 < oq → 2 * oq ≤ src.quarterLength →
        (nachschlag = true → 4 * oq ≤ src.quarterLength) → src.canTranspose = false →
        Trill.realize transpose reverse ctx sz oq nachschlag setAcc src
          = .error (.typeError "Expected note; got an object without transpose")) ∧
    (∀ (z : I) (oq : ℚ) (src : MNote I),
        src.quarterLength ≠ 0 → ¬ src.quarterLength < 4 * oq →
        src.canTranspose = false →
        Turn.realize transpose reverse ctx (some z) oq src
          = .error (.attributeError "object has no attribute transpose")) ∧
    (∀ (d : String) (z : I) (src : MNote I),
        (d = "up" ∨ d = "down") → src.quarterLength ≠ 0 → src.canTranspose = false →
        GeneralAppoggiatura.realize transpose reverse ctx d (some z) src
          = .error (.attributeError "object has no attribute transpose")) := by
  refine ⟨?_, ?_, ?_, ?_⟩
  · intro d z oq src hd h0 h2 hct
    have hdir : ¬ (d ≠ "up" ∧ d ≠ "down") := by
      rcases hd with h | h <;> simp [h]
    unfold GeneralMordent.realize Ornament.fillListOfRealizedNotes
    rw [if_neg hdir]
    simp [if_neg h0, if_neg h2, hct]
  · intro sz oq nachschlag setAcc src hoq h2 hnach hct
    have h0 : src.quarterLength ≠ 0 := by
      have : (0 : ℚ) < src.quarterLength := by linarith
      exact ne_of_gt this
    have h2x : ¬ src.quarterLength < 2 * oq := not_lt.mpr h2
    have h3 : ¬ (src.quarterLength < 4 * oq ∧ nachschlag = true) := by
      rintro ⟨hlt, hn⟩
      exact absurd (hnach hn) (not_le.mpr hlt)
    have hp2 : ((if nachschlag = true then ⌊src.quarterLength / oq⌋ - 2
        else ⌊src.quarterLength / oq⌋).toNat / 2) ≠ 0 :=
      Nat.pos_iff_ne_zero.mp (trillPairs_pos hoq h2 hnach)
    unfold Trill.realize Ornament.fillListOfRealizedNotes
    rw [if_neg h0, if_neg h2x, if_neg h3]
    simp [if_neg hp2, hct]
  · intro z oq src h0 h4 hct
    simp only [Turn.realize, if_neg h0, if_neg h4, hct]
    simp
  · intro d z src hd h0 hct
    have hdir : ¬ (d ≠ "up" ∧ d ≠ "down") := by
      rcases hd with h | h <;> simp [h]
    simp only [GeneralAppoggiatura.realize, if_neg hdir, if_neg h0, hct]
    simp

/-- C8 counterexample: a turn realized on an object without a `transpose`
attribute fails with `AttributeError`, which is not the claimed
`TypeError`. -/
theorem C8_counterexample :
    (mkUnpitched 2).canTranspose = false ∧
    Turn.realize intTranspose intReverse none (some (1:ℤ)) (1/4) (mkUnpitched 2)
      = .error (.attributeError "object has no attribute transpose") ∧
    M21Error.isTypeError (.attributeError "object has no attribute transpose") = false := by
  exact ⟨rfl, of_decide_eq_true (by with_unfolding_all rfl), rfl⟩

/-- C8 witness: each transposing ornament kind fails on a concrete
unpitched object, with its kind-specific exception. -/
theorem C8_witness :
    GeneralMordent.realize intTranspose intReverse none "down" (some (1:ℤ)) (1/8)
        (mkUnpitched 2)
      = .error (.typeError "Expected note; got an object without transpose") ∧
    Trill.realize intTranspose intReverse none (1:ℤ) (1/8) false true (mkUnpitched 2)
      = .error (.typeError "Expected note; got an object without transpose") ∧
    Turn.realize intTranspose intReverse none (some (1:ℤ)) (1/4) (mkUnpitched 2)
      = .error (.attributeError "object has no attribute transpose") ∧
    GeneralAppoggiatura.realize intTranspose intReverse none "down" (some (1:ℤ))
        (mkUnpitched 2)
      = .error (.attributeError "object has no attribute transpose") := by
  refine ⟨?_, ?_, ?_, ?_⟩
  · exact (C8_unsupported_target intTranspose intReverse none).1 "down" 1 (1/8) _
      (Or.inr rfl) (of_decide_eq_true (by with_unfolding_all rfl))
      (of_decide_eq_true (by with_unfolding_all rfl)) rfl
  · exact (C8_unsupported_target intTranspose intReverse none).2.1 1 (1/8) false true _
      (of_decide_eq_true (by with_unfolding_all rfl))
      (of_decide_eq_true (by with_unfolding_all rfl))
      (fun h => by cases h) rfl
  · exact (C8_unsupported_target intTranspose intReverse none).2.2.1 1 (1/4) _
      (of_decide_eq_true (by with_unfolding_all rfl))
      (of_decide_eq_true (by with_unfolding_all rfl)) rfl
  · exact (C8_unsupported_target intTranspose intReverse none).2.2.2 "down" 1 _
      (Or.inr rfl) (of_decide_eq_true (by with_unfolding_all rfl)) rfl
/-- C9: identity case of the driver.  Confirmed: a note that lacks the
`expressions` attribute, or whose expressions list is empty, is returned
as a one-element list holding the very same note value, with the original
unchanged. -/
theorem C9_identity_case {I : Type} [DecidableEq I] (t : Pitch → I → Pitch)
    (r : I → I) (c : Option (Char → Option Int)) :
    (∀ src : MNote I, src.hasExprAttr = false →
        realizeOrnaments t r c src = .ok ([src], src)) ∧
    (∀ src : MNote I, src.expressions = [] →
        realizeOrnaments t r c src = .ok ([src], src)) := by
  constructor
  · intro src h
    simp [realizeOrnaments, h]
  · intro src h
    simp [realizeOrnaments, h]

/-- C9 witness: the identity case on a concrete bare note and on a
concrete object without an `expressions` attribute. -/
theorem C9_witness :
    realizeOrnaments intTranspose intReverse none (mkNote 'D' none 5 1 [])
      = .ok ([mkNote 'D' none 5 1 []], mkNote 'D' none 5 1 []) ∧
    realizeOrnaments intTranspose intReverse none
        { mkNote 'D' none 5 1 [] with hasExprAttr := false }
      = .ok ([{ mkNote 'D' none 5 1 [] with hasExprAttr := false }],
             { mkNote 'D' none 5 1 [] with hasExprAttr := false }) := by
  constructor
  · exact (C9_identity_case intTranspose intReverse none).2 (mkNote 'D' none 5 1 []) rfl
  · exact (C9_identity_case intTranspose intReverse none).1
      { mkNote 'D' none 5 1 [] with hasExprAttr := false } rfl

/-- C10: grace notes keep the full expressions list.  Confirmed: the deep
copies emitted through `fillListOfRealizedNotes` retain the source's
entire expressions list — including the ornament being realized — while
the remainder returned by the driver has the processed ornament stripped
(its expressions are reset to the tail of the list). -/
theorem C10_grace_note_expressions {I : Type} [DecidableEq I]
    (t : Pitch → I → Pitch) (r : I → I) (c : Option (Char → Option Int)) :
    (∀ (d : String) (z : I) (oq : ℚ) (src : MNote I),
        src.expressions = [Exp.generalMordent d (some z) oq] →
        (d = "up" ∨ d = "down") → src.quarterLength ≠ 0 →
        ¬ src.quarterLength < oq * 2 → src.canTranspose = true →
        src.hasExprAttr = true →
        realizeOrnaments t r c src =
          .ok (mordentGraceNotes t (resolveKS c) (if d = "down" then r z else z) oq src
                 ++ [{ src with quarterLength := src.quarterLength - 2 * oq, expressions := [] }],
               src)) ∧
    (∀ (ks : Char → Option Int) (ti : I) (oq : ℚ) (src : MNote I),
        (mordentGraceNotes t ks ti oq src).map (fun g => g.expressions)
          = [src.expressions, src.expressions]) ∧
    (∀ (sz : I) (oq : ℚ) (nachschlag setAcc : Bool) (src : MNote I)
        (res : RealizeResult I),
        0 < oq → 2 * oq ≤ src.quarterLength →
        (nachschlag = true → 4 * oq ≤ src.quarterLength) → src.canTranspose = true →
        Trill.realize t r c sz oq nachschlag setAcc src = .ok res →
        ∀ nt ∈ res.1, nt.expressions = src.expressions) := by
  refine ⟨?_, ?_, ?_⟩
  · intro d z oq src hexp hd h0 h2 ht hha
    have hdl : driverLoop t r c 100 [] [] src true src =
        .ok (mordentGraceNotes t (resolveKS c) (if d = "down" then r z else z) oq src,
             [], some { src with quarterLength := src.quarterLength - 2 * oq, expressions := [] },
             src) := by
      rw [show (100 : ℕ) = 99 + 1 from rfl]
      simp only [driverLoop, hexp, hasRealize, expRealize]
      rw [GeneralMordent.mordentRealize_spec t r c hd h0 h2 ht]
      simp [aliasingRealize]
    simp only [realizeOrnaments, hexp]
    rw [hdl]
    simp [hha]
  · intro ks ti oq src
    simp [mordentGraceNotes, setAccFromKS]
  · intro sz oq nachschlag setAcc src res hoq h2 hnach ht hok nt hmem
    rw [Trill.trillRealize_spec t r c hoq h2 hnach ht] at hok
    injection hok with hok
    subst hok
    simp only [List.mem_flatMap, List.mem_range] at hmem
    obtain ⟨k, _, hmem⟩ := hmem
    simp only [List.mem_cons, List.mem_singleton] at hmem
    rcases hmem with h | h | h
    · rw [h]
    · rw [h, trillTransposedNote_expressions]
    · cases h
/-- C10 witness: a concrete mordent-bearing note whose two grace notes
still carry the mordent in their expressions while the remainder has it
stripped, and a concrete trill core note carrying the trill itself. -/
theorem C10_witness :
    realizeOrnaments intTranspose intReverse none
        (mkNote 'C' none 4 (1/2) [Exp.generalMordent "down" (some (1:ℤ)) (1/8)])
      = .ok (mordentGraceNotes intTranspose (resolveKS none)
               (if "down" = "down" then intReverse 1 else 1) (1/8)
               (mkNote 'C' none 4 (1/2) [Exp.generalMordent "down" (some (1:ℤ)) (1/8)])
             ++ [{ mkNote 'C' none 4 (1/2) [Exp.generalMordent "down" (some (1:ℤ)) (1/8)] with
                   quarterLength := 1/2 - 2 * (1/8), expressions := [] }],
             mkNote 'C' none 4 (1/2) [Exp.generalMordent "down" (some (1:ℤ)) (1/8)]) ∧
    (realizeOrnaments intTranspose intReverse none
        (mkNote 'C' none 4 (1/2) [Exp.generalMordent "down" (some (1:ℤ)) (1/8)])).map
        (fun rr => rr.1.map (fun n => n.expressions))
      = .ok [[Exp.generalMordent "down" (some (1:ℤ)) (1/8)],
             [Exp.generalMordent "down" (some (1:ℤ)) (1/8)], []] ∧
    (mkNote 'D' none 4 (1/8) [Exp.trill 1 (1/8) false true]).expressions
      = (mkNote 'C' none 4 (1/4) [Exp.trill 1 (1/8) false true]).expressions := by
  refine ⟨?_, ?_, ?_⟩
  · exact (C10_grace_note_expressions intTranspose intReverse none).1 "down" 1 (1/8) _
      rfl (Or.inr rfl) (of_decide_eq_true (by with_unfolding_all rfl))
      (of_decide_eq_true (by with_unfolding_all rfl)) rfl rfl
  · exact of_decide_eq_true (by with_unfolding_all rfl)
  · exact (C10_grace_note_expressions intTranspose intReverse none).2.2 1 (1/8) false true
      (mkNote 'C' none 4 (1/4) [Exp.trill 1 (1/8) false true])
      ([mkNote 'C' none 4 (1/8) [Exp.trill 1 (1/8) false true],
        mkNote 'D' none 4 (1/8) [Exp.trill 1 (1/8) false true]], none, [])
      (of_decide_eq_true (by with_unfolding_all rfl))
      (of_decide_eq_true (by with_unfolding_all rfl))
      (fun h => by cases h) rfl
      (of_decide_eq_true (by with_unfolding_all rfl))
      (mkNote 'D' none 4 (1/8) [Exp.trill 1 (1/8) false true])
      (of_decide_eq_true (by with_unfolding_all rfl))
